import Mathlib

/-!
Shallow embedding of the core logic of the `compile-sketches` action
(`compilesketches.py`): dependency classification, platform installation
path resolution, sketch discovery, output parsing, the two-pass deltas
engine, and the sketches-report aggregation, together with theorems
settling the specification claims about them.

Conventions of the embedding:
* The Python sentinel string `"N/A"` (`not_applicable_indicator`) is the
  constructor `NAV.na` of a sum type; numeric values are `NAV.val`.
* Machine reals (Python floats) are modelled as exact rationals; Python's
  `round(x, 2)` is modelled by `round2` (round half to even, as Python does).
* The raw compiler output string is abstracted by `OutputData`, whose fields
  record what `re.search` finds for each of the four size regexes of
  `get_sizes_from_output` (the captured integer, if any) and what
  `re.findall` counts for the warning regex.
* Process side effects (git checkouts, compilations, report-file writes,
  exits) are recorded as explicit event traces.
-/

namespace CompileSketches

/-- Sentinel-or-value type replacing Python's mixing of the string `"N/A"`
(`not_applicable_indicator`) with numbers. -/
inductive NAV (α : Type) where
  | na : NAV α
  | val : α → NAV α
deriving DecidableEq, Repr

/-- Python `round` to an integer: round half to even (banker's rounding). -/
def pyRound (q : ℚ) : ℤ :=
  let f : ℤ := ⌊q⌋
  let frac : ℚ := q - f
  if frac < 1 / 2 then f
  else if 1 / 2 < frac then f + 1
  else if f % 2 = 0 then f else f + 1

/-- Python `round(x, 2)` (`relative_size_report_decimal_places = 2`). -/
def round2 (q : ℚ) : ℚ := (pyRound (q * 100) : ℚ) / 100

/-- Abstraction of the raw compiler stdout: for each size regex of
`get_sizes_from_output`, the integer captured by `re.search` (or `none` when
the regex does not match), and the number of `re.findall` matches of the
compiler-warning regex `:[0-9]+:[0-9]+: warning:`. -/
structure OutputData where
  flashAbs : Option Nat
  flashMax : Option Nat
  ramAbs : Option Nat
  ramMax : Option Nat
  warningMatches : Nat
deriving DecidableEq, Repr

/-- Result object returned by `compile_sketch`: sketch path, success flag
(`returncode == 0`), and the captured output. `compile_sketch` is a total
function here because it invokes the CLI with `exit_on_failure=False`. -/
structure CompilationResult where
  sketch : String
  success : Bool
  output : OutputData
deriving DecidableEq, Repr

/-- One element of the list returned by `get_sizes_from_output`. -/
structure SizeEntry where
  name : String
  absolute : NAV ℕ
  maximum : NAV ℕ
  relative : NAV ℚ
deriving DecidableEq, Repr

/-- Memory type name used by `get_sizes_from_output`. -/
def flashName : String := "flash"

/-- Memory type name used by `get_sizes_from_output`. -/
def ramName : String := "RAM for global variables"

/-- Loop body of `get_sizes_from_output` for one memory type.  The fields
default to `N/A`; on a successful compilation the absolute figure is taken
from the regex search, and only if it is truthy (Python `if size_data:` —
`None` and `0` are both falsy) is the maximum searched for; only if the
maximum is truthy in turn is the relative figure computed as
`round(100 * absolute / maximum, 2)`. -/
def sizeEntryFor (success : Bool) (name : String) (absData maxData : Option ℕ) :
    SizeEntry :=
  if success then
    match absData with
    | some a =>
      if a = 0 then ⟨name, .na, .na, .na⟩
      else
        match maxData with
        | some m =>
          if m = 0 then ⟨name, .val a, .na, .na⟩
          else ⟨name, .val a, .val m, .val (round2 (100 * (a : ℚ) / (m : ℚ)))⟩
        | none => ⟨name, .val a, .na, .na⟩
    | none => ⟨name, .na, .na, .na⟩
  else ⟨name, .na, .na, .na⟩

/-- `get_sizes_from_output`: parse the flash and RAM figures out of the
compilation output, producing `N/A` placeholders when compilation failed or
a figure is absent. -/
def get_sizes_from_output (r : CompilationResult) : List SizeEntry :=
  [sizeEntryFor r.success flashName r.output.flashAbs r.output.flashMax,
   sizeEntryFor r.success ramName r.output.ramAbs r.output.ramMax]

/-- `get_warning_count_from_output`: the number of warning-regex matches, or
`N/A` when compilation failed. -/
def get_warning_count_from_output (r : CompilationResult) : NAV ℕ :=
  if r.success then .val r.output.warningMatches else .na

/-- `do_deltas_report`: the deltas pass runs when the feature is enabled,
the current compilation succeeded, and some current absolute size figure or
the current warning count (when one was computed at all) is not `N/A`. -/
def do_deltas_report (enable_deltas_report : Bool) (r : CompilationResult)
    (current_sizes : List SizeEntry) (current_warnings : Option (NAV ℕ)) : Bool :=
  enable_deltas_report && r.success &&
    (current_sizes.any (fun s => s.absolute ≠ .na) ||
      (match current_warnings with
       | some w => w ≠ NAV.na
       | none => false))

/-- Delta pair stored under the `delta` key of a size report:
absolute delta (bytes, signed) and relative delta (percent). -/
structure DeltaPair where
  absolute : NAV ℤ
  relative : NAV ℚ
deriving DecidableEq, Repr

/-- The `previous` and `delta` keys that `get_size_report` adds to a size
report when the deltas feature produced a previous-pass measurement. -/
structure SizeDeltaData where
  previous_absolute : NAV ℕ
  previous_relative : NAV ℚ
  delta : DeltaPair
deriving DecidableEq, Repr

/-- One element of the `sizes` list of a sketch report
(`get_size_report`). -/
structure SizeReport where
  name : String
  maximum : NAV ℕ
  current_absolute : NAV ℕ
  current_relative : NAV ℚ
  deltas : Option SizeDeltaData
deriving DecidableEq, Repr

/-- `get_size_report`: combine the current (and optional previous) parse of
one memory type.  The absolute delta is `current - previous` when both are
numeric, else `N/A`; the relative delta is recomputed from the absolute
delta and the maximum (not by subtracting rounded percentages). -/
def get_size_report (c : SizeEntry) (p : Option SizeEntry) : SizeReport :=
  match p with
  | none => ⟨c.name, c.maximum, c.absolute, c.relative, none⟩
  | some pe =>
    let absolute_delta : NAV ℤ :=
      match c.absolute, pe.absolute with
      | .val a, .val b => .val ((a : ℤ) - (b : ℤ))
      | _, _ => .na
    let relative_delta : NAV ℚ :=
      match absolute_delta, c.maximum with
      | .val d, .val m => .val (round2 (100 * (d : ℚ) / (m : ℚ)))
      | _, _ => .na
    ⟨c.name, c.maximum, c.absolute, c.relative,
      some ⟨pe.absolute, pe.relative, ⟨absolute_delta, relative_delta⟩⟩⟩

/-- `get_sizes_report`: zip the current sizes with the previous ones (the
source generates a dummy all-`None` previous list when deltas are off). -/
def get_sizes_report (cur : List SizeEntry) (prev : Option (List SizeEntry)) :
    List SizeReport :=
  match prev with
  | none => cur.map (fun c => get_size_report c none)
  | some ps => (cur.zip ps).map (fun cp => get_size_report cp.1 (some cp.2))

/-- The `previous` and `delta` keys that `get_warnings_report` adds when a
previous warning count exists. -/
structure WarningsDeltaData where
  previous : NAV ℕ
  delta : NAV ℤ
deriving DecidableEq, Repr

/-- The `warnings` record of a sketch report (`get_warnings_report`). -/
structure WarningsReport where
  current : NAV ℕ
  deltas : Option WarningsDeltaData
deriving DecidableEq, Repr

/-- `get_warnings_report`: the warnings delta is `current - previous` when
both counts are numeric, else `N/A`. -/
def get_warnings_report (cw : NAV ℕ) (pw : Option (NAV ℕ)) : WarningsReport :=
  match pw with
  | none => ⟨cw, none⟩
  | some p =>
    let warnings_delta : NAV ℤ :=
      match cw, p with
      | .val a, .val b => .val ((a : ℤ) - (b : ℤ))
      | _, _ => .na
    ⟨cw, some ⟨p, warnings_delta⟩⟩

/-- One per-sketch report (`get_sketch_report`'s dictionary): workspace-
relative sketch path, success flag, sizes list, and — only when the
warnings report is enabled — the warnings record. -/
structure SketchReport where
  name : String
  compilation_success : Bool
  sizes : List SizeReport
  warnings : Option WarningsReport
deriving DecidableEq, Repr

/-- Repository-state events performed by `get_sketch_report`'s dual pass. -/
inductive GitEvent where
  | checkoutRef (ref : String)
  | compileBaseline (success : Bool)
deriving DecidableEq, Repr

/-- Environment of the dual pass: the recorded head revision
(`repository.head.object.hexsha`), the resolved deltas base ref, and the
result the baseline compilation would produce. -/
structure DeltaEnv where
  originalRef : String
  baseRef : String
  baselineResult : CompilationResult
deriving DecidableEq, Repr

/-- The two feature switches consulted by the report pipeline. -/
structure Config where
  enable_deltas_report : Bool
  enable_warnings_report : Bool
deriving DecidableEq, Repr

/-- `get_sketch_report`: parse the current figures; when `do_deltas_report`
says so, check out the base ref, recompile, check the original revision
back out (unconditionally — `compile_sketch` never exits, as it runs the
CLI with `exit_on_failure=False`), and attach previous/delta figures.
Returns the git-event trace together with the report. -/
def get_sketch_report (cfg : Config) (env : DeltaEnv) (r : CompilationResult) :
    List GitEvent × SketchReport :=
  let current_sizes := get_sizes_from_output r
  let current_warnings : Option (NAV ℕ) :=
    if cfg.enable_warnings_report then some (get_warning_count_from_output r) else none
  if do_deltas_report cfg.enable_deltas_report r current_sizes current_warnings then
    let previous_sizes := get_sizes_from_output env.baselineResult
    let previous_warnings : Option (NAV ℕ) :=
      if cfg.enable_warnings_report then
        some (get_warning_count_from_output env.baselineResult)
      else none
    ([.checkoutRef env.baseRef,
      .compileBaseline env.baselineResult.success,
      .checkoutRef env.originalRef],
     ⟨r.sketch, r.success,
      get_sizes_report current_sizes (some previous_sizes),
      if cfg.enable_warnings_report then
        some (get_warnings_report (get_warning_count_from_output r) previous_warnings)
      else none⟩)
  else
    ([], ⟨r.sketch, r.success,
      get_sizes_report current_sizes none,
      if cfg.enable_warnings_report then
        some (get_warnings_report (get_warning_count_from_output r) none)
      else none⟩)

/-- Observable events of one `compile_sketches` run. -/
inductive RunEvent where
  | compiled (sketch : String) (success : Bool)
  | wroteReport (reports : List SketchReport)
  | exited (code : ℕ)
deriving DecidableEq, Repr

/-- Environment of a `compile_sketches` run: configuration plus, per sketch
path, the outcome the toolchain would produce and the dual-pass
environment. -/
structure RunEnv where
  cfg : Config
  success : String → Bool
  output : String → OutputData
  denv : String → DeltaEnv

/-- Loop body of `compile_sketches`: compile one sketch, update the
`all_compilations_successful` flag, append the sketch report, and record
the compilation event. -/
def compile_sketches_step (env : RunEnv) (acc : Bool × List SketchReport × List RunEvent)
    (s : String) : Bool × List SketchReport × List RunEvent :=
  let r : CompilationResult := ⟨s, env.success s, env.output s⟩
  (acc.1 && r.success,
   acc.2.1 ++ [(get_sketch_report env.cfg (env.denv s) r).2],
   acc.2.2 ++ [.compiled s r.success])

/-- `compile_sketches`: compile every sketch in order, then write the
sketches report file, then exit 1 when any compilation failed (explicit
`sys.exit(1)`) and 0 otherwise (normal return of `main`). -/
def compile_sketches_run (env : RunEnv) (sketches : List String) : List RunEvent :=
  let res := sketches.foldl (compile_sketches_step env) (true, [], [])
  res.2.2 ++ [.wroteReport res.2.1, .exited (if res.1 then 0 else 1)]

/-- Extract the warnings delta of a sketch report, when the report has a
`warnings` record carrying a `delta` key (the guard of the loop in
`get_warnings_summary_report`). -/
def warningsDeltaOf (r : SketchReport) : Option (NAV ℤ) :=
  r.warnings.bind (fun w => w.deltas.map (fun dd => dd.delta))

/-- Running-minimum update of `get_warnings_summary_report`: `None` or
`"N/A"` is overwritten by the incoming delta; a numeric minimum is lowered
only by a numeric delta strictly below it. -/
def warningsMinStep (m : Option (NAV ℤ)) (d : NAV ℤ) : Option (NAV ℤ) :=
  match m with
  | none => some d
  | some .na => some d
  | some (.val v) =>
    match d with
    | .na => some (.val v)
    | .val x => if v > x then some (.val x) else some (.val v)

/-- Running-maximum update of `get_warnings_summary_report`, mirroring
`warningsMinStep`. -/
def warningsMaxStep (m : Option (NAV ℤ)) (d : NAV ℤ) : Option (NAV ℤ) :=
  match m with
  | none => some d
  | some .na => some d
  | some (.val v) =>
    match d with
    | .na => some (.val v)
    | .val x => if v < x then some (.val x) else some (.val v)

/-- The pair `(summary_report_minimum, summary_report_maximum)` after the
loop of `get_warnings_summary_report` over the whole report list. -/
def warningsSummaryState (l : List SketchReport) : Option (NAV ℤ) × Option (NAV ℤ) :=
  l.foldl
    (fun acc r =>
      match warningsDeltaOf r with
      | some d => (warningsMinStep acc.1 d, warningsMaxStep acc.2 d)
      | none => acc)
    (none, none)

/-- `get_warnings_summary_report`: `none` models the empty dictionary
returned when no sketch carried a warnings delta; otherwise the recorded
minimum together with whatever the maximum slot holds. -/
def get_warnings_summary_report (l : List SketchReport) :
    Option (NAV ℤ × Option (NAV ℤ)) :=
  match warningsSummaryState l with
  | (some m, M) => some (m, M)
  | (none, _) => none

/-- The min/max delta bands of one sizes-summary entry: the absolute band
and the correlated relative band. -/
structure SizeBands where
  absMin : NAV ℤ
  absMax : NAV ℤ
  relMin : NAV ℚ
  relMax : NAV ℚ
deriving DecidableEq, Repr

/-- Python `<` on a delta against a recorded extreme.  The `N/A` rows
return `false`; they are unreachable in `get_sizes_summary_report` (Python
would raise `TypeError` comparing an int with the string `"N/A"`, and the
branch guards keep both sides numeric there). -/
def NAV.ltB : NAV ℤ → NAV ℤ → Bool
  | .val a, .val b => a < b
  | _, _ => false

/-- Python `>` on a delta against a recorded extreme; see `NAV.ltB`. -/
def NAV.gtB : NAV ℤ → NAV ℤ → Bool
  | .val a, .val b => b < a
  | _, _ => false

/-- Delta-band update of `get_sizes_summary_report` for one summary entry:
when the entry has no `delta` key yet, or its recorded minimum is `"N/A"`,
the whole band is replaced by the incoming delta pair; otherwise a numeric
incoming absolute delta lowers the minimum / raises the maximum (carrying
its relative value along), and an `"N/A"` one changes nothing. -/
def sizesDeltaStep (cur : Option SizeBands) (d : DeltaPair) : Option SizeBands :=
  match cur with
  | none => some ⟨d.absolute, d.absolute, d.relative, d.relative⟩
  | some b =>
    if b.absMin = .na then some ⟨d.absolute, d.absolute, d.relative, d.relative⟩
    else if d.absolute ≠ .na then
      let b1 :=
        if NAV.ltB d.absolute b.absMin then
          { b with absMin := d.absolute, relMin := d.relative }
        else b
      let b2 :=
        if NAV.gtB d.absolute b1.absMax then
          { b1 with absMax := d.absolute, relMax := d.relative }
        else b1
      some b2
    else some b

/-- One entry of the sizes summary list: memory type name, the `maximum`
key (absent until first visited), and the delta bands (absent until a
report with a `delta` key is seen). -/
structure SizeSummary where
  name : String
  maximum : Option (NAV ℕ)
  delta : Option SizeBands
deriving DecidableEq, Repr

/-- Per-entry body of the loop of `get_sizes_summary_report`: adopt the
report's maximum when the key is missing or still `"N/A"`, then update the
delta bands when the report carries a `delta` key. -/
def stepEntry (e : SizeSummary) (sr : SizeReport) : SizeSummary :=
  let e1 :=
    if e.maximum = none ∨ e.maximum = some .na then { e with maximum := some sr.maximum }
    else e
  match sr.deltas with
  | none => e1
  | some dd => { e1 with delta := sizesDeltaStep e1.delta dd.delta }

/-- Locate (or append, as the source does when the memory type has no
entry yet) the summary entry matching the size report's name, and apply
`stepEntry` to it. -/
def updateSizesSummary : List SizeSummary → SizeReport → List SizeSummary
  | [], sr => [stepEntry ⟨sr.name, none, none⟩ sr]
  | e :: rest, sr =>
    if e.name = sr.name then stepEntry e sr :: rest
    else e :: updateSizesSummary rest sr

/-- `get_sizes_summary_report`: fold over every size report of every
sketch report. -/
def get_sizes_summary_report (l : List SketchReport) : List SizeSummary :=
  l.foldl (fun acc r => r.sizes.foldl updateSizesSummary acc) []

/-- A dependency declaration dictionary; each key may be absent. -/
structure Dependency where
  name : Option String
  version : Option String
  source_path : Option String
  source_url : Option String
  destination_name : Option String
deriving DecidableEq, Repr

/-- The four installation-strategy buckets of `sort_dependency_list`. -/
inductive Bucket where
  | manager
  | path
  | repository
  | download
deriving DecidableEq, Repr

/-- Python `url.rstrip("/")` on the character list. -/
def rstripSlash (l : List Char) : List Char :=
  (l.reverse.dropWhile (fun c => c = '/')).reverse

/-- Python `str.endswith` over code points. -/
def strEndsWith (s suffix : String) : Bool :=
  suffix.data.isSuffixOf s.data

/-- Python `str.startswith` over code points. -/
def strStartsWith (s pre : String) : Bool :=
  pre.data.isPrefixOf s.data

/-- A source URL denotes a repository when, with trailing slashes
stripped, it ends in `.git`, or when it starts with `git://`. -/
def isRepositoryUrl (url : String) : Bool :=
  ".git".data.isSuffixOf (rstripSlash url.data) || strStartsWith url "git://"

/-- Consume a literal from the front of a character list, returning the
remainder on success. -/
def matchLit : List Char → List Char → Option (List Char)
  | [], l => some l
  | _ :: _, [] => none
  | c :: cs, x :: xs => if x = c then matchLit cs xs else none

/-- Anchored match of the regex tail `index.json` (the dot matching any
character other than a newline) followed by anything. -/
def matchTailAt (l : List Char) : Bool :=
  match matchLit "index".data l with
  | some (c :: rest) => c ≠ '\n' && (matchLit "json".data rest).isSome
  | _ => false

/-- Search for `matchTailAt` after skipping a (possibly empty) run of
non-newline characters, as the `.*` before `index` does. -/
def findIndexJson : List Char → Bool
  | [] => false
  | c :: rest => matchTailAt (c :: rest) || (c ≠ '\n' && findIndexJson rest)

/-- Anchored match of `/package_` followed by `.*index.json`. -/
def matchMidAt (l : List Char) : Bool :=
  match matchLit "/package_".data l with
  | some rest => findIndexJson rest
  | none => false

/-- Search for `matchMidAt` after skipping a (possibly empty) run of
non-newline characters, as the leading `.*` does. -/
def findSlashPackage : List Char → Bool
  | [] => false
  | c :: rest => matchMidAt (c :: rest) || (c ≠ '\n' && findSlashPackage rest)

/-- Semantics of `re.match(".*/package_.*index.json", url)`: a match
anchored at the start of the string (an arbitrary suffix may remain, since
`re.match` does not anchor the end). -/
def matchesPackageIndex (url : String) : Bool :=
  findSlashPackage url.data

/-- The classification if-chain of `sort_dependency_list`, evaluated per
declaration: source-url presence is checked first (repository, then
additional package index, then download), then source-path, and bare
declarations go to the package manager. -/
def classify (d : Dependency) : Bucket :=
  match d.source_url with
  | some url =>
    if isRepositoryUrl url then .repository
    else if matchesPackageIndex url then .manager
    else .download
  | none =>
    match d.source_path with
    | some _ => .path
    | none => .manager

/-- The `Dependencies` container class: four bucket lists. -/
structure Dependencies where
  manager : List Dependency
  path : List Dependency
  repository : List Dependency
  download : List Dependency
deriving DecidableEq, Repr

/-- Freshly constructed `Dependencies()` container. -/
def Dependencies.empty : Dependencies := ⟨[], [], [], []⟩

/-- Read one bucket of the container. -/
def Dependencies.bucket (deps : Dependencies) : Bucket → List Dependency
  | .manager => deps.manager
  | .path => deps.path
  | .repository => deps.repository
  | .download => deps.download

/-- Append a declaration to the bucket its classification selects. -/
def addToBucket (acc : Dependencies) (d : Dependency) : Dependencies :=
  match classify d with
  | .manager => { acc with manager := acc.manager ++ [d] }
  | .path => { acc with path := acc.path ++ [d] }
  | .repository => { acc with repository := acc.repository ++ [d] }
  | .download => { acc with download := acc.download ++ [d] }

/-- `sort_dependency_list`: classify every declaration of the input list,
silently dropping `None` entries. -/
def sort_dependency_list (l : List (Option Dependency)) : Dependencies :=
  l.foldl
    (fun acc od =>
      match od with
      | some d => addToBucket acc d
      | none => acc)
    .empty

/-- One element of the installed-platform list returned by the live
`core list` query: the platform identifier and its installed version. -/
structure InstalledPlatform where
  id : String
  installed_version : String
deriving DecidableEq, Repr

/-- The `PlatformInstallationPath` value object of
`get_platform_installation_path`; the path is modelled as its list of
components. -/
structure PlatformInstallationPath where
  path : List String
  is_overwrite : Bool
deriving DecidableEq, Repr

/-- Python `name.split(":")[0]`: the substring before the first colon
(the whole string when there is none). -/
def vendorOf (name : String) : String :=
  ⟨name.data.takeWhile (fun c => c ≠ ':')⟩

/-- Python `name.rsplit(":", 1)[1]`: the substring after the last colon
(only meaningful when the name contains a colon, as a
`vendor:architecture` platform name does). -/
def archOf (name : String) : String :=
  ⟨(name.data.reverse.takeWhile (fun c => c ≠ ':')).reverse⟩

/-- `get_platform_installation_path`: default to the sketchbook path
`user_platforms_path/vendor/architecture` with no overwrite; if the live
installed-platform list has an entry whose identifier equals the
dependency name, the first such entry (the loop breaks at the first hit)
redirects the installation to
`board_manager_platforms_path/vendor/hardware/architecture/installed_version`
with overwrite. -/
def get_platform_installation_path (user_platforms_path board_manager_platforms_path : List String)
    (installed : List InstalledPlatform) (name : String) : PlatformInstallationPath :=
  let vendor := vendorOf name
  let arch := archOf name
  match installed.find? (fun p => p.id == name) with
  | some p =>
    ⟨board_manager_platforms_path ++ [vendor, "hardware", arch, p.installed_version], true⟩
  | none => ⟨user_platforms_path ++ [vendor, arch], false⟩

/-- A filesystem tree: named files and named directories with children. -/
inductive FSEntry where
  | file (name : String)
  | dir (name : String) (children : List FSEntry)

/-- Name (last path component) of an entry. -/
def FSEntry.entryName : FSEntry → String
  | .file n => n
  | .dir n _ => n

/-- Whether an entry is a directory. -/
def FSEntry.isDir : FSEntry → Bool
  | .file _ => false
  | .dir _ _ => true

/-- The recognized sketch extensions of `path_is_sketch`. -/
def sketchExtensions : List String := [".ino", ".pde"]

/-- Python `Path.suffix`: the final extension including its dot, empty for
names with no dot, a leading-dot-only name, or a trailing dot. -/
def fileSuffix (n : String) : String :=
  let rev := n.data.reverse
  if rev.contains '.' then
    let afterDot := rev.takeWhile (fun c => c ≠ '.')
    if 0 < afterDot.length ∧ afterDot.length < n.length - 1 then
      ⟨'.' :: afterDot.reverse⟩
    else ""
  else ""

/-- `path_is_sketch`: a file is a sketch when its suffix is a recognized
extension; a directory is a sketch when `glob("*" + extension)` finds a
direct child (of either kind — the glob does not test `is_file`) whose
name ends with a recognized extension. -/
def path_is_sketch : FSEntry → Bool
  | .file n => sketchExtensions.any (fun ext => fileSuffix n == ext)
  | .dir _ children =>
    sketchExtensions.any (fun ext => children.any (fun c => strEndsWith c.entryName ext))

mutual

/-- All strict descendants of an entry, paired with their full path
strings, as `rglob("*")` enumerates them (before sorting). -/
def descendantsOf (p : String) : FSEntry → List (String × FSEntry)
  | .file _ => []
  | .dir _ cs => descendantsList p cs

/-- Descendants contributed by a list of children of a directory at
path `p`. -/
def descendantsList (p : String) : List FSEntry → List (String × FSEntry)
  | [] => []
  | c :: rest =>
    (p ++ "/" ++ c.entryName, c) :: descendantsOf (p ++ "/" ++ c.entryName) c
      ++ descendantsList p rest

end

/-- Lexicographic code-point comparison of character lists: the order
Python uses to compare the strings of two paths. -/
def charListLe : List Char → List Char → Bool
  | [], _ => true
  | _ :: _, [] => false
  | a :: as, b :: bs =>
    if a < b then true
    else if b < a then false
    else charListLe as bs

/-- Python `<=` on two path strings. -/
def pathStrLe (a b : String) : Prop := charListLe a.data b.data = true

/-- Ordering on descendants used by `sorted(...)` over `pathlib.Path`
objects: string comparison of the full path. -/
def pathLe (a b : String × FSEntry) : Prop := pathStrLe a.1 b.1

instance : DecidableRel pathLe := fun a b =>
  inferInstanceAs (Decidable (charListLe a.1.data b.1.data = true))

instance : IsTotal (String × FSEntry) pathLe where
  total := by
    have h : ∀ l1 l2 : List Char, charListLe l1 l2 = true ∨ charListLe l2 l1 = true := by
      intro l1
      induction l1 with
      | nil => intro l2; left; rfl
      | cons a as ih =>
        intro l2
        cases l2 with
        | nil => right; rfl
        | cons b bs =>
          rcases lt_trichotomy a b with hab | hab | hab
          · left; simp [charListLe, hab]
          · subst hab
            rcases ih bs with h | h
            · left; simp [charListLe, lt_irrefl, h]
            · right; simp [charListLe, lt_irrefl, h]
          · right; simp [charListLe, hab]
    intro a b
    exact h a.1.data b.1.data

instance : IsTrans (String × FSEntry) pathLe where
  trans := by
    have h : ∀ l1 l2 l3 : List Char, charListLe l1 l2 = true → charListLe l2 l3 = true →
        charListLe l1 l3 = true := by
      intro l1
      induction l1 with
      | nil => intro l2 l3 _ _; rfl
      | cons a as ih =>
        intro l2 l3 h12 h23
        cases l2 with
        | nil => simp [charListLe] at h12
        | cons b bs =>
          cases l3 with
          | nil => simp [charListLe] at h23
          | cons c cs =>
            rcases lt_trichotomy a b with hab | hab | hab
            · rcases lt_trichotomy b c with hbc | hbc | hbc
              · simp [charListLe, lt_trans hab hbc]
              · subst hbc; simp [charListLe, hab]
              · simp [charListLe, asymm hbc, hbc] at h23
            · subst hab
              simp only [charListLe, lt_irrefl, if_false] at h12
              rcases lt_trichotomy a c with hac | hac | hac
              · simp [charListLe, hac]
              · subst hac
                simp only [charListLe, lt_irrefl, if_false] at h23 ⊢
                exact ih bs cs h12 h23
              · simp [charListLe, asymm hac, hac] at h23
            · simp [charListLe, asymm hab, hab] at h12
    intro a b c hab hbc
    exact h a.1.data b.1.data c.1.data hab hbc

/-- The filter of the recursive search: a descendant is collected when it
is a directory and qualifies as a sketch. -/
def qualifiesAsSketchDir (pe : String × FSEntry) : Bool :=
  pe.2.isDir && path_is_sketch pe.2

/-- Per-root body of `find_sketches` for a root path that exists and is a
directory: the root itself when it qualifies as a sketch, followed by
every descendant directory that qualifies, visited in sorted path
order. -/
def findSketchesRoot (p : String) (e : FSEntry) : List String :=
  (if path_is_sketch e then [p] else []) ++
    (((descendantsOf p e).insertionSort pathLe).filter qualifiesAsSketchDir).map Prod.fst

/-- `find_sketches` over root paths that exist and are directories: each
root must yield at least one sketch (else the run aborts with an error
naming the root), and the result is the concatenation of the per-root
match lists in input order. -/
def find_sketches : List (String × FSEntry) → Except String (List String)
  | [] => .ok []
  | (p, e) :: rest =>
    let lst := findSketchesRoot p e
    if lst = [] then .error ("No sketches were found in " ++ p)
    else
      match find_sketches rest with
      | .ok others => .ok (lst ++ others)
      | .error msg => .error msg

/-- Predicate taken from the claim's wording (a refinement-side
definition, to be compared with `path_is_sketch`): the directory directly
contains at least one file — not a subdirectory — whose name carries a
recognized sketch extension. -/
def hasDirectSketchFile : FSEntry → Bool
  | .file _ => false
  | .dir _ children =>
    children.any (fun c => !c.isDir &&
      sketchExtensions.any (fun ext => strEndsWith c.entryName ext))

lemma sizeEntryFor_relative (success : Bool) (name : String) (absData maxData : Option ℕ) :
    (((sizeEntryFor success name absData maxData).absolute = .na ∨
        (sizeEntryFor success name absData maxData).maximum = .na) →
      (sizeEntryFor success name absData maxData).relative = .na) ∧
    (∀ a m : ℕ, (sizeEntryFor success name absData maxData).absolute = .val a →
      (sizeEntryFor success name absData maxData).maximum = .val m →
      (sizeEntryFor success name absData maxData).relative =
        .val (round2 (100 * (a : ℚ) / (m : ℚ)))) := by
  unfold sizeEntryFor
  rcases success with _ | _
  · simp
  · rcases absData with _ | a
    · simp
    · by_cases ha : a = 0
      · simp [ha]
      · rcases maxData with _ | m
        · simp [ha]
        · by_cases hm : m = 0 <;> simp [ha, hm]

lemma sizeEntryFor_absolute_na (success : Bool) (name : String) (absData maxData : Option ℕ)
    (h : (sizeEntryFor success name absData maxData).absolute = .na) :
    (sizeEntryFor success name absData maxData).maximum = .na ∧
      (sizeEntryFor success name absData maxData).relative = .na := by
  unfold sizeEntryFor at h ⊢
  rcases success with _ | _
  · simp
  · rcases absData with _ | a
    · simp
    · by_cases ha : a = 0
      · simp [ha]
      · rcases maxData with _ | m
        · simp [ha] at h
        · by_cases hm : m = 0 <;> simp [ha, hm] at h

/-- C7: when the compilation failed, the output parser returns `N/A` for
the absolute, maximum and relative figures of both memory types without
consulting the output, and the warning count is `N/A` — never zero —
whatever the output holds. -/
theorem failed_compilation_all_na (r : CompilationResult) (h : r.success = false) :
    get_sizes_from_output r =
      [⟨flashName, .na, .na, .na⟩, ⟨ramName, .na, .na, .na⟩] ∧
    get_warning_count_from_output r = .na ∧
    get_warning_count_from_output r ≠ .val 0 := by
  refine ⟨?_, ?_, ?_⟩ <;>
    simp [get_sizes_from_output, sizeEntryFor, get_warning_count_from_output, h]

/-- Witness for C7 at a failed compilation whose raw output nevertheless
contains size figures and no warnings. -/
theorem failed_compilation_all_na_witness :
    get_sizes_from_output ⟨"Blink", false, ⟨some 802, some 1604, some 9, some 2048, 0⟩⟩ =
      [⟨flashName, .na, .na, .na⟩, ⟨ramName, .na, .na, .na⟩] ∧
    get_warning_count_from_output ⟨"Blink", false, ⟨some 802, some 1604, some 9, some 2048, 0⟩⟩ = .na ∧
    get_warning_count_from_output ⟨"Blink", false, ⟨some 802, some 1604, some 9, some 2048, 0⟩⟩ ≠ .val 0 :=
  failed_compilation_all_na _ rfl

/-- C3: in every parsed size metric the relative figure is `N/A` whenever
the absolute or the maximum figure is, and otherwise equals
`round(100 * absolute / maximum, 2)`. -/
theorem relative_size_formula (r : CompilationResult) (s : SizeEntry)
    (hs : s ∈ get_sizes_from_output r) :
    ((s.absolute = .na ∨ s.maximum = .na) → s.relative = .na) ∧
    (∀ a m : ℕ, s.absolute = .val a → s.maximum = .val m →
      s.relative = .val (round2 (100 * (a : ℚ) / (m : ℚ)))) := by
  rcases List.mem_cons.mp hs with h | h
  · subst h; exact sizeEntryFor_relative ..
  · rcases List.mem_cons.mp h with h | h
    · subst h; exact sizeEntryFor_relative ..
    · simp at h

/-- Witness for C3 on the output of spec scenario B
(`Sketch uses 802 bytes ... Maximum is 1604 bytes`), where both figures
are present and `relative = 50.0`. -/
theorem relative_size_formula_witness :
    (sizeEntryFor true flashName (some 802) (some 1604)).relative =
      .val (round2 (100 * (802 : ℚ) / (1604 : ℚ))) :=
  (relative_size_formula ⟨"Blink", true, ⟨some 802, some 1604, none, none, 0⟩⟩
    (sizeEntryFor true flashName (some 802) (some 1604))
    (by simp [get_sizes_from_output])).2 802 1604 (by decide) (by decide)

lemma do_deltas_report_iff (cfg : Config) (r : CompilationResult) :
    (do_deltas_report cfg.enable_deltas_report r (get_sizes_from_output r)
        (if cfg.enable_warnings_report then some (get_warning_count_from_output r) else none) =
      true) ↔
    (cfg.enable_deltas_report = true ∧ r.success = true ∧
      ((∃ se ∈ get_sizes_from_output r, se.absolute ≠ NAV.na) ∨
        (cfg.enable_warnings_report = true ∧ get_warning_count_from_output r ≠ NAV.na))) := by
  unfold do_deltas_report
  cases hw : cfg.enable_warnings_report <;>
    simp [hw, List.any_eq_true, and_assoc]

/-- C2: the baseline compilation pass of `get_sketch_report` runs exactly
when the deltas feature is enabled, the current compilation succeeded, and
some current absolute size figure — equivalently, by the second conjunct,
some current size figure at all — or the current warning count (when the
warnings report computes one) is a real, non-`N/A` value. -/
theorem deltas_pass_condition (cfg : Config) (env : DeltaEnv) (r : CompilationResult) :
    ((∃ b : Bool, GitEvent.compileBaseline b ∈ (get_sketch_report cfg env r).1) ↔
      (cfg.enable_deltas_report = true ∧ r.success = true ∧
        ((∃ se ∈ get_sizes_from_output r, se.absolute ≠ NAV.na) ∨
          (cfg.enable_warnings_report = true ∧ get_warning_count_from_output r ≠ NAV.na)))) ∧
    (∀ se ∈ get_sizes_from_output r,
      (se.maximum ≠ NAV.na ∨ se.relative ≠ NAV.na) → se.absolute ≠ NAV.na) := by
  constructor
  · by_cases h :
      do_deltas_report cfg.enable_deltas_report r (get_sizes_from_output r)
          (if cfg.enable_warnings_report then some (get_warning_count_from_output r) else none) =
        true
    · rw [← do_deltas_report_iff cfg r, ← h]
      simp [get_sketch_report, h]
    · rw [iff_false_intro ((not_congr (do_deltas_report_iff cfg r)).mp h)]
      simp [get_sketch_report, h]
  · intro se hse hor
    intro habs
    rcases List.mem_cons.mp hse with h | h
    · rcases sizeEntryFor_absolute_na _ _ _ _ (h ▸ habs) with ⟨h1, h2⟩
      rcases hor with hm | hr
      · exact hm (h ▸ h1)
      · exact hr (h ▸ h2)
    · rcases List.mem_cons.mp h with h | h
      · rcases sizeEntryFor_absolute_na _ _ _ _ (h ▸ habs) with ⟨h1, h2⟩
        rcases hor with hm | hr
        · exact hm (h ▸ h1)
        · exact hr (h ▸ h2)
      · simp at h

/-- Witness for C2: on a successful compilation whose flash maximum was
parsed, the second conjunct yields a real absolute figure. -/
theorem deltas_pass_condition_witness :
    (sizeEntryFor true flashName (some 802) (some 1604)).absolute ≠ NAV.na :=
  (deltas_pass_condition ⟨true, false⟩ ⟨"orig", "base", ⟨"s", true, ⟨none, none, none, none, 0⟩⟩⟩
      ⟨"s", true, ⟨some 802, some 1604, none, none, 0⟩⟩).2
    _ (by simp [get_sizes_from_output]) (Or.inl (by decide))

/-- C8: whenever the dual pass is entered, the trace of repository events
contains the baseline compilation and, at a later position, the checkout
of the originally recorded revision — with no assumption on the baseline
compilation's success flag, so the restoring checkout happens even when
the baseline compile fails. -/
theorem dual_pass_restores_original_ref (cfg : Config) (env : DeltaEnv) (r : CompilationResult)
    (h : do_deltas_report cfg.enable_deltas_report r (get_sizes_from_output r)
          (if cfg.enable_warnings_report then some (get_warning_count_from_output r) else none) =
        true) :
    ∃ i j : ℕ, i < j ∧
      (get_sketch_report cfg env r).1[i]? =
        some (.compileBaseline env.baselineResult.success) ∧
      (get_sketch_report cfg env r).1[j]? = some (.checkoutRef env.originalRef) := by
  refine ⟨1, 2, by omega, ?_, ?_⟩ <;> simp [get_sketch_report, h]

/-- Witness for C8 at a run whose baseline compilation fails: the dual
pass still ends by checking out the original revision. -/
theorem dual_pass_restores_original_ref_witness :
    ∃ i j : ℕ, i < j ∧
      (get_sketch_report ⟨true, false⟩
          ⟨"orig", "base", ⟨"Blink", false, ⟨none, none, none, none, 0⟩⟩⟩
          ⟨"Blink", true, ⟨some 5, none, none, none, 0⟩⟩).1[i]? =
        some (.compileBaseline false) ∧
      (get_sketch_report ⟨true, false⟩
          ⟨"orig", "base", ⟨"Blink", false, ⟨none, none, none, none, 0⟩⟩⟩
          ⟨"Blink", true, ⟨some 5, none, none, none, 0⟩⟩).1[j]? =
        some (.checkoutRef "orig") :=
  dual_pass_restores_original_ref _ _ _ (by decide)

lemma get_sketch_report_projections (cfg : Config) (env : DeltaEnv) (r : CompilationResult) :
    (get_sketch_report cfg env r).2.name = r.sketch ∧
      (get_sketch_report cfg env r).2.compilation_success = r.success := by
  unfold get_sketch_report
  dsimp only
  split <;> split <;> simp

lemma compile_sketches_foldl (env : RunEnv) (sketches : List String) (b : Bool)
    (reps : List SketchReport) (evs : List RunEvent) :
    sketches.foldl (compile_sketches_step env) (b, reps, evs) =
      (b && sketches.all env.success,
       reps ++ sketches.map
         (fun s => (get_sketch_report env.cfg (env.denv s) ⟨s, env.success s, env.output s⟩).2),
       evs ++ sketches.map (fun s => .compiled s (env.success s))) := by
  induction sketches generalizing b reps evs with
  | nil => simp
  | cons s rest ih =>
    simp only [List.foldl_cons, compile_sketches_step, ih, List.map_cons, List.all_cons]
    refine congrArg₂ _ (by rw [Bool.and_assoc]) (congrArg₂ _ ?_ ?_) <;> simp

/-- C5: a `compile_sketches` run compiles every sketch of the batch in
order, produces a report entry carrying each sketch's outcome, writes the
sketches report containing all of them, and only then exits — with status
1 exactly when some compilation failed and status 0 when all
succeeded. -/
theorem batch_attempted_then_exit (env : RunEnv) (sketches : List String) :
    ∃ reports : List SketchReport,
      compile_sketches_run env sketches =
        sketches.map (fun s => RunEvent.compiled s (env.success s)) ++
          [.wroteReport reports,
           .exited (if sketches.all env.success then 0 else 1)] ∧
      reports.map (fun rep => (rep.name, rep.compilation_success)) =
        sketches.map (fun s => (s, env.success s)) := by
  refine ⟨sketches.map
    (fun s => (get_sketch_report env.cfg (env.denv s) ⟨s, env.success s, env.output s⟩).2),
    ?_, ?_⟩
  · unfold compile_sketches_run
    rw [compile_sketches_foldl]
    simp
  · rw [List.map_map]
    refine List.map_congr_left fun s _ => ?_
    rcases get_sketch_report_projections env.cfg (env.denv s) ⟨s, env.success s, env.output s⟩
      with ⟨h1, h2⟩
    simp [h1, h2]

lemma bucket_addToBucket (acc : Dependencies) (d : Dependency) (b : Bucket) :
    (addToBucket acc d).bucket b =
      acc.bucket b ++ (if classify d = b then [d] else []) := by
  rcases hc : classify d <;> rcases b <;>
    simp [addToBucket, Dependencies.bucket, hc]

lemma sort_dependency_list_foldl (l : List (Option Dependency)) (acc : Dependencies) (b : Bucket) :
    (l.foldl
        (fun acc od =>
          match od with
          | some d => addToBucket acc d
          | none => acc)
        acc).bucket b =
      acc.bucket b ++ (l.filterMap id).filter (fun d => classify d = b) := by
  induction l generalizing acc with
  | nil => simp
  | cons od rest ih =>
    rcases od with _ | d
    · simpa using ih acc
    · rw [List.foldl_cons]
      show (rest.foldl _ (addToBucket acc d)).bucket b = _
      rw [ih (addToBucket acc d), bucket_addToBucket]
      by_cases hc : classify d = b <;> simp [hc]

/-- C4: `sort_dependency_list` puts every non-null declaration into
exactly one bucket — each bucket holds, in input order, exactly the
declarations the ordered classification rules assign to it — and the
classification of a declaration carrying a source-url is determined by
that URL alone, regardless of any source-path. -/
theorem dependency_buckets (l : List (Option Dependency)) :
    (∀ b : Bucket, (sort_dependency_list l).bucket b =
      (l.filterMap id).filter (fun d => classify d = b)) ∧
    (∀ d d' : Dependency, d.source_url = d'.source_url → d.source_url ≠ none →
      classify d = classify d') := by
  constructor
  · intro b
    unfold sort_dependency_list
    rw [sort_dependency_list_foldl]
    rcases b <;> simp [Dependencies.empty, Dependencies.bucket]
  · intro d d' hurl hsome
    rcases hu : d.source_url with _ | url
    · exact absurd hu hsome
    · unfold classify
      rw [hu, ← hurl, hu]

/-- Witness for C4: a declaration carrying both a `git://` source-url and
a source-path classifies identically to one carrying the URL alone. -/
theorem dependency_buckets_witness :
    classify ⟨some "Lib", none, some "/local/path", some "git://host/repo", none⟩ =
      classify ⟨none, none, none, some "git://host/repo", none⟩ :=
  (dependency_buckets []).2 _ _ rfl (by simp)

lemma find?_first_match (name : String) (l1 : List InstalledPlatform) (p : InstalledPlatform)
    (l2 : List InstalledPlatform) (h1 : ∀ q ∈ l1, q.id ≠ name) (hp : p.id = name) :
    (l1 ++ p :: l2).find? (fun q => q.id == name) = some p := by
  induction l1 with
  | nil =>
    rw [List.nil_append]
    exact List.find?_cons_of_pos _ (by simp [hp])
  | cons q rest ih =>
    rw [List.cons_append, List.find?_cons_of_neg _ (by simp [h1 q (by simp)])]
    exact ih fun x hx => h1 x (by simp [hx])

lemma takeWhile_ne_colon_split {l : List Char} (h : (':' : Char) ∈ l) :
    ∃ rest, l = l.takeWhile (fun c => c ≠ ':') ++ ':' :: rest ∧
      (':' : Char) ∉ l.takeWhile (fun c => c ≠ ':') := by
  induction l with
  | nil => simp at h
  | cons c cs ih =>
    by_cases hc : c = ':'
    · subst hc
      exact ⟨cs, by simp, by simp⟩
    · have h' : (':' : Char) ∈ cs := by
        rcases List.mem_cons.mp h with h | h
        · exact absurd h.symm hc
        · exact h
      rcases ih h' with ⟨rest, heq, hmem⟩
      refine ⟨rest, ?_, ?_⟩
      · rw [List.takeWhile_cons_of_pos (by simp [hc]), List.cons_append]
        exact congrArg _ heq
      · rw [List.takeWhile_cons_of_pos (by simp [hc])]
        intro hin
        rcases List.mem_cons.mp hin with h'' | h''
        · exact hc h''.symm
        · exact hmem h''

lemma vendorOf_split (name : String) (h : (':' : Char) ∈ name.data) :
    ∃ rest, name.data = (vendorOf name).data ++ ':' :: rest ∧
      (':' : Char) ∉ (vendorOf name).data :=
  takeWhile_ne_colon_split h

lemma archOf_split (name : String) (h : (':' : Char) ∈ name.data) :
    ∃ rest, name.data = rest ++ ':' :: (archOf name).data ∧
      (':' : Char) ∉ (archOf name).data := by
  rcases takeWhile_ne_colon_split (List.mem_reverse.mpr h) with ⟨rest, heq, hmem⟩
  refine ⟨rest.reverse, ?_, ?_⟩
  · have := congrArg List.reverse heq
    rw [List.reverse_reverse, List.reverse_append, List.reverse_cons, List.append_assoc] at this
    simpa [archOf] using this
  · simpa [archOf] using hmem

/-- C6: for a `vendor:architecture` platform name, the resolver returns
the board-manager storage path `vendor/hardware/architecture/version` of
the first installed platform whose identifier equals the name, with the
overwrite flag set; when no installed platform matches, it returns the
sketchbook path `vendor/architecture` with the flag clear.  The vendor is
the substring before the first colon and the architecture the substring
after the last colon. -/
theorem platform_installation_path_resolution (user bm : List String)
    (installed : List InstalledPlatform) (name : String) (hcolon : (':' : Char) ∈ name.data) :
    (∀ l1 p l2, installed = l1 ++ p :: l2 → (∀ q ∈ l1, q.id ≠ name) → p.id = name →
      get_platform_installation_path user bm installed name =
        ⟨bm ++ [vendorOf name, "hardware", archOf name, p.installed_version], true⟩) ∧
    ((∀ q ∈ installed, q.id ≠ name) →
      get_platform_installation_path user bm installed name =
        ⟨user ++ [vendorOf name, archOf name], false⟩) ∧
    (∃ rest, name.data = (vendorOf name).data ++ ':' :: rest ∧
      (':' : Char) ∉ (vendorOf name).data) ∧
    (∃ rest, name.data = rest ++ ':' :: (archOf name).data ∧
      (':' : Char) ∉ (archOf name).data) := by
  refine ⟨?_, ?_, vendorOf_split name hcolon, archOf_split name hcolon⟩
  · intro l1 p l2 hdecomp h1 hp
    unfold get_platform_installation_path
    rw [hdecomp, find?_first_match name l1 p l2 h1 hp]
  · intro hnone
    unfold get_platform_installation_path
    rw [List.find?_eq_none.mpr (fun q hq => by simp [hnone q hq])]

/-- Witness for C6: with two installed entries matching `arduino:avr`,
the resolver uses the first one's version and the board-manager tree. -/
theorem platform_installation_path_resolution_witness :
    get_platform_installation_path ["Arduino", "hardware"] ["arduino15", "packages"]
        [⟨"esp8266:esp8266", "2.5.0"⟩, ⟨"arduino:avr", "1.8.3"⟩, ⟨"arduino:avr", "9.9.9"⟩]
        "arduino:avr" =
      ⟨["arduino15", "packages"] ++
        [vendorOf "arduino:avr", "hardware", archOf "arduino:avr", "1.8.3"], true⟩ :=
  (platform_installation_path_resolution ["Arduino", "hardware"] ["arduino15", "packages"]
      [⟨"esp8266:esp8266", "2.5.0"⟩, ⟨"arduino:avr", "1.8.3"⟩, ⟨"arduino:avr", "9.9.9"⟩]
      "arduino:avr" (by decide)).1
    [⟨"esp8266:esp8266", "2.5.0"⟩] ⟨"arduino:avr", "1.8.3"⟩ [⟨"arduino:avr", "9.9.9"⟩]
    rfl (by decide) rfl

lemma hasDirectSketchFile_imp_sketch (e : FSEntry) (h : hasDirectSketchFile e = true) :
    path_is_sketch e = true := by
  rcases e with n | ⟨n, children⟩
  · simp [hasDirectSketchFile] at h
  · simp only [hasDirectSketchFile, List.any_eq_true, Bool.and_eq_true] at h
    rcases h with ⟨c, hc, _, hext⟩
    rcases hext with ⟨ext, hextmem, hends⟩
    exact List.any_eq_true.mpr ⟨ext, hextmem, List.any_eq_true.mpr ⟨c, hc, hends⟩⟩

lemma find_sketches_ok_concat (roots : List (String × FSEntry)) (result : List String)
    (h : find_sketches roots = .ok result) :
    result = roots.flatMap (fun pr => findSketchesRoot pr.1 pr.2) := by
  induction roots generalizing result with
  | nil =>
    unfold find_sketches at h
    injection h with h
    simp [h.symm]
  | cons pr rest ih =>
    unfold find_sketches at h
    by_cases hl : findSketchesRoot pr.1 pr.2 = []
    · rw [if_pos hl] at h
      exact absurd h (by simp)
    · rw [if_neg hl] at h
      rcases hrec : find_sketches rest with msg | others
      · rw [hrec] at h
        exact absurd h (by simp)
      · rw [hrec] at h
        injection h with h
        rw [List.flatMap_cons, ← h, ih others hrec]

/-- C9: when `find_sketches` succeeds on existing directory roots, the
result is the concatenation, in input order, of each root's matches; a
root directly containing a recognized-extension sketch file appears among
its own matches; every descendant directory qualifying as a sketch appears
among its root's matches; and the recursively found matches are listed in
sorted path order. -/
theorem sketch_discovery (roots : List (String × FSEntry)) (result : List String)
    (h : find_sketches roots = .ok result) :
    result = roots.flatMap (fun pr => findSketchesRoot pr.1 pr.2) ∧
    (∀ pr ∈ roots, hasDirectSketchFile pr.2 = true → pr.1 ∈ findSketchesRoot pr.1 pr.2) ∧
    (∀ pr ∈ roots, ∀ qd ∈ descendantsOf pr.1 pr.2, qd.2.isDir = true →
      path_is_sketch qd.2 = true → qd.1 ∈ findSketchesRoot pr.1 pr.2) ∧
    (∀ pr ∈ roots, List.Sorted pathStrLe
      ((((descendantsOf pr.1 pr.2).insertionSort pathLe).filter
          qualifiesAsSketchDir).map Prod.fst)) := by
  refine ⟨find_sketches_ok_concat roots result h, ?_, ?_, ?_⟩
  · intro pr _ hd
    unfold findSketchesRoot
    rw [if_pos (hasDirectSketchFile_imp_sketch pr.2 hd)]
    exact List.mem_append_left _ (by simp)
  · intro pr _ qd hqd hdir hsk
    refine List.mem_append_right _ ?_
    refine List.mem_map.mpr ⟨qd, List.mem_filter.mpr ⟨?_, ?_⟩, rfl⟩
    · exact ((List.perm_insertionSort pathLe _).mem_iff).mpr hqd
    · simp [qualifiesAsSketchDir, hdir, hsk]
  · intro pr _
    refine List.pairwise_map.mpr ?_
    exact ((List.sorted_insertionSort pathLe _).filter _).imp (fun hab => hab)

/-- Witness for C9 on a root holding a sketch file and one nested sketch
directory: the root and the nested directory are both reported. -/
theorem sketch_discovery_witness :
    (["sk", "sk/sub"] : List String) =
      [("sk", FSEntry.dir "sk" [.file "sk.ino", .dir "sub" [.file "sub.ino"]])].flatMap
        (fun pr => findSketchesRoot pr.1 pr.2) ∧
    (∀ pr ∈ [("sk", FSEntry.dir "sk" [.file "sk.ino", .dir "sub" [.file "sub.ino"]])],
      hasDirectSketchFile pr.2 = true → pr.1 ∈ findSketchesRoot pr.1 pr.2) ∧
    (∀ pr ∈ [("sk", FSEntry.dir "sk" [.file "sk.ino", .dir "sub" [.file "sub.ino"]])],
      ∀ qd ∈ descendantsOf pr.1 pr.2, qd.2.isDir = true →
        path_is_sketch qd.2 = true → qd.1 ∈ findSketchesRoot pr.1 pr.2) ∧
    (∀ pr ∈ [("sk", FSEntry.dir "sk" [.file "sk.ino", .dir "sub" [.file "sub.ino"]])],
      List.Sorted pathStrLe
        ((((descendantsOf pr.1 pr.2).insertionSort pathLe).filter
            qualifiesAsSketchDir).map Prod.fst)) :=
  sketch_discovery _ _ rfl

lemma warningsSummaryState_foldl (l : List SketchReport) (a b : Option (NAV ℤ)) :
    l.foldl
        (fun acc r =>
          match warningsDeltaOf r with
          | some d => (warningsMinStep acc.1 d, warningsMaxStep acc.2 d)
          | none => acc)
        (a, b) =
      ((l.filterMap warningsDeltaOf).foldl warningsMinStep a,
       (l.filterMap warningsDeltaOf).foldl warningsMaxStep b) := by
  induction l generalizing a b with
  | nil => simp
  | cons r rest ih =>
    rcases hd : warningsDeltaOf r with _ | d <;>
      simp only [List.foldl_cons, List.filterMap_cons, hd] <;>
      exact ih _ _

/-- C1: the running min/max delta bands — the per-memory-type bands of the
sizes summary and the scalar band of the warnings summary — obey the
`N/A` lattice: over any report list the warnings band is the fold of the
step functions over the deltas present; an empty or still-`N/A` band
accepts any incoming delta (so `N/A` is recorded only as a placeholder
before a numeric value arrives); an `N/A` delta never displaces a numeric
extreme; and a numeric delta displaces a numeric extreme exactly when it
is strictly lower (minimum) or strictly higher (maximum), the sizes band
carrying the correlated relative delta along. -/
theorem summary_band_lattice :
    (∀ l : List SketchReport,
      warningsSummaryState l =
        ((l.filterMap warningsDeltaOf).foldl warningsMinStep none,
         (l.filterMap warningsDeltaOf).foldl warningsMaxStep none)) ∧
    (∀ d : NAV ℤ, warningsMinStep none d = some d ∧ warningsMaxStep none d = some d) ∧
    (∀ d : NAV ℤ,
      warningsMinStep (some .na) d = some d ∧ warningsMaxStep (some .na) d = some d) ∧
    (∀ v : ℤ, warningsMinStep (some (.val v)) .na = some (.val v) ∧
      warningsMaxStep (some (.val v)) .na = some (.val v)) ∧
    (∀ v x : ℤ,
      warningsMinStep (some (.val v)) (.val x) = some (.val (if x < v then x else v)) ∧
      warningsMaxStep (some (.val v)) (.val x) = some (.val (if v < x then x else v))) ∧
    (∀ d : DeltaPair,
      sizesDeltaStep none d = some ⟨d.absolute, d.absolute, d.relative, d.relative⟩) ∧
    (∀ (aM : NAV ℤ) (rm rM : NAV ℚ) (d : DeltaPair),
      sizesDeltaStep (some ⟨.na, aM, rm, rM⟩) d =
        some ⟨d.absolute, d.absolute, d.relative, d.relative⟩) ∧
    (∀ (m : ℤ) (aM : NAV ℤ) (rm rM r : NAV ℚ),
      sizesDeltaStep (some ⟨.val m, aM, rm, rM⟩) ⟨.na, r⟩ = some ⟨.val m, aM, rm, rM⟩) ∧
    (∀ (m M : ℤ) (rm rM : NAV ℚ) (x : ℤ) (r : NAV ℚ),
      sizesDeltaStep (some ⟨.val m, .val M, rm, rM⟩) ⟨.val x, r⟩ =
        some ⟨if x < m then .val x else .val m,
              if M < x then .val x else .val M,
              if x < m then r else rm,
              if M < x then r else rM⟩) := by
  refine ⟨fun l => warningsSummaryState_foldl l none none, ?_, ?_, ?_, ?_, ?_, ?_, ?_, ?_⟩
  · intro d; exact ⟨rfl, rfl⟩
  · intro d; exact ⟨rfl, rfl⟩
  · intro v; exact ⟨rfl, rfl⟩
  · intro v x
    constructor <;> · by_cases h : x < v <;> by_cases h' : v < x <;>
        simp [warningsMinStep, warningsMaxStep, h, h']
  · intro d; rfl
  · intro aM rm rM d; rfl
  · intro m aM rm rM r
    simp [sizesDeltaStep]
  · intro m M rm rM x r
    by_cases h1 : x < m <;> by_cases h2 : M < x <;>
      simp [sizesDeltaStep, NAV.ltB, NAV.gtB, h1, h2]

lemma warnings_state_inv (l : List SketchReport) :
    ((warningsSummaryState l).1 = none ∧ (warningsSummaryState l).2 = none) ∨
    ((warningsSummaryState l).1 = some .na ∧ (warningsSummaryState l).2 = some .na) ∨
    (∃ a b : ℤ, (warningsSummaryState l).1 = some (.val a) ∧
      (warningsSummaryState l).2 = some (.val b) ∧ a ≤ b) := by
  have hstep : ∀ (st : Option (NAV ℤ) × Option (NAV ℤ)) (d : NAV ℤ),
      ((st.1 = none ∧ st.2 = none) ∨ (st.1 = some .na ∧ st.2 = some .na) ∨
        (∃ a b : ℤ, st.1 = some (.val a) ∧ st.2 = some (.val b) ∧ a ≤ b)) →
      (((warningsMinStep st.1 d, warningsMaxStep st.2 d) : _ × _).1 = none ∧
          (warningsMinStep st.1 d, warningsMaxStep st.2 d).2 = none) ∨
      ((warningsMinStep st.1 d, warningsMaxStep st.2 d).1 = some .na ∧
          (warningsMinStep st.1 d, warningsMaxStep st.2 d).2 = some .na) ∨
      (∃ a b : ℤ, (warningsMinStep st.1 d, warningsMaxStep st.2 d).1 = some (.val a) ∧
          (warningsMinStep st.1 d, warningsMaxStep st.2 d).2 = some (.val b) ∧ a ≤ b) := by
    rintro ⟨m, M⟩ d hP
    rcases hP with ⟨h1, h2⟩ | ⟨h1, h2⟩ | ⟨a, b, h1, h2, hab⟩ <;> subst h1 <;> subst h2
    · rcases d with _ | x
      · right; left; exact ⟨rfl, rfl⟩
      · right; right; exact ⟨x, x, rfl, rfl, le_refl x⟩
    · rcases d with _ | x
      · right; left; exact ⟨rfl, rfl⟩
      · right; right; exact ⟨x, x, rfl, rfl, le_refl x⟩
    · rcases d with _ | x
      · right; right; exact ⟨a, b, rfl, rfl, hab⟩
      · right; right
        refine ⟨if x < a then x else a, if b < x then x else b, ?_, ?_, ?_⟩
        · by_cases h : x < a <;> simp [warningsMinStep, h]
        · by_cases h : b < x <;> simp [warningsMaxStep, h]
        · split_ifs <;> omega
  have main : ∀ (ll : List SketchReport) (st : Option (NAV ℤ) × Option (NAV ℤ)),
      ((st.1 = none ∧ st.2 = none) ∨ (st.1 = some .na ∧ st.2 = some .na) ∨
        (∃ a b : ℤ, st.1 = some (.val a) ∧ st.2 = some (.val b) ∧ a ≤ b)) →
      (((ll.foldl
            (fun acc r =>
              match warningsDeltaOf r with
              | some d => (warningsMinStep acc.1 d, warningsMaxStep acc.2 d)
              | none => acc)
            st).1 = none ∧
          (ll.foldl
            (fun acc r =>
              match warningsDeltaOf r with
              | some d => (warningsMinStep acc.1 d, warningsMaxStep acc.2 d)
              | none => acc)
            st).2 = none) ∨
        ((ll.foldl
            (fun acc r =>
              match warningsDeltaOf r with
              | some d => (warningsMinStep acc.1 d, warningsMaxStep acc.2 d)
              | none => acc)
            st).1 = some .na ∧
          (ll.foldl
            (fun acc r =>
              match warningsDeltaOf r with
              | some d => (warningsMinStep acc.1 d, warningsMaxStep acc.2 d)
              | none => acc)
            st).2 = some .na) ∨
        (∃ a b : ℤ,
          (ll.foldl
            (fun acc r =>
              match warningsDeltaOf r with
              | some d => (warningsMinStep acc.1 d, warningsMaxStep acc.2 d)
              | none => acc)
            st).1 = some (.val a) ∧
          (ll.foldl
            (fun acc r =>
              match warningsDeltaOf r with
              | some d => (warningsMinStep acc.1 d, warningsMaxStep acc.2 d)
              | none => acc)
            st).2 = some (.val b) ∧ a ≤ b)) := by
    intro ll
    induction ll with
    | nil => intro st h; simpa using h
    | cons r rest ih =>
      intro st h
      rw [List.foldl_cons]
      rcases hd : warningsDeltaOf r with _ | d
      · simp only [hd]
        exact ih st h
      · simp only [hd]
        exact ih _ (hstep st d h)
  exact main l (none, none) (Or.inl ⟨rfl, rfl⟩)

/-- C10: a non-empty warnings summary carries either an `N/A` minimum and
maximum together, or a numeric minimum and maximum with the minimum not
exceeding the maximum; one-sided `N/A` never occurs. -/
theorem warnings_band_well_formed (l : List SketchReport) (m : NAV ℤ) (M : Option (NAV ℤ))
    (h : get_warnings_summary_report l = some (m, M)) :
    (m = .na ∧ M = some .na) ∨
      ∃ a b : ℤ, m = .val a ∧ M = some (.val b) ∧ a ≤ b := by
  have hinv := warnings_state_inv l
  unfold get_warnings_summary_report at h
  rcases hst : warningsSummaryState l with ⟨m', M'⟩
  rw [hst] at h hinv
  rcases m' with _ | m''
  · simp at h
  · simp only [Option.some.injEq, Prod.mk.injEq] at h
    rcases h with ⟨hm, hM⟩
    rcases hinv with ⟨h1, _⟩ | ⟨h1, h2⟩ | ⟨a, b, h1, h2, hab⟩
    · exact absurd h1 (by simp)
    · left
      simp only at h1 h2
      exact ⟨hm ▸ (Option.some.injEq .. ▸ h1.symm ▸ rfl : m'' = NAV.na), hM ▸ h2⟩
    · right
      simp only at h1 h2
      refine ⟨a, b, ?_, hM ▸ h2, hab⟩
      rw [← hm]
      exact Option.some_injective _ h1

/-- Witness for C10 on a two-sketch batch with warnings deltas 8 and 42:
the summary band is numeric with minimum 8 and maximum 42. -/
theorem warnings_band_well_formed_witness :
    ((NAV.val 8 : NAV ℤ) = .na ∧ (some (NAV.val 42) : Option (NAV ℤ)) = some .na) ∨
      ∃ a b : ℤ, (NAV.val 8 : NAV ℤ) = .val a ∧
        (some (NAV.val 42) : Option (NAV ℤ)) = some (.val b) ∧ a ≤ b :=
  warnings_band_well_formed
    [⟨"SketchA", true, [], some ⟨.val 9, some ⟨.val 1, .val 8⟩⟩⟩,
     ⟨"SketchB", true, [], some ⟨.val 50, some ⟨.val 8, .val 42⟩⟩⟩]
    (.val 8) (some (.val 42)) rfl

end CompileSketches
